import Mathlib

/-!
Shallow embedding of the churn-model core of the customer_dashboard
repository (src/churn_model.py): the recency-weighted event risk scorer
`predict_churn_risk_simplified_rnn` and the Monte Carlo forecaster
`monte_carlo_churn_prediction`.

Modelling conventions:
* Python floats are embedded as exact rationals (for the weighted score)
  and real numbers (for the logistic transform); the claims under study
  are order/structural properties, stated in exact arithmetic.
* Python's pseudo-random draws are derandomised into an explicit oracle
  argument: for each (simulation index, forecast day) the oracle supplies
  the value of random.random() and the index drawn by random.choice.
* Python's `datetime.strptime(s, '%Y-%m-%d')` is embedded as a computable
  parser returning `Option Date` that enforces CPython's field widths
  (`%Y` exactly four ASCII digits, `%m` and `%d` at most two); a
  `ValueError` raised by the source is embedded as `Except.error`.
* Python's date arithmetic `+ timedelta(days=1)` raises OverflowError
  past `datetime.max` = 9999-12-31; this is embedded by the fallible
  `addOneDay`, threaded through the trial loop so the model fails
  exactly where the source raises.
-/

namespace ChurnModel

/-- An event record, as the dicts `{'date': ..., 'type': ...}` used by
src/churn_model.py.  Only the two fields the core reads are modelled. -/
structure Event where
  date : String
  type : String
deriving DecidableEq, Repr

/-- The per-event score contribution of `predict_churn_risk_simplified_rnn`
(src/churn_model.py lines 28-37): the chain of if/elif branches on
`event['type']`.  A type outside the vocabulary contributes 0 (the final
implicit else of the chain). -/
def eventContribution (t : String) : ℚ :=
  if t = "inactivity" then 1/5
  else if t = "support_query" then 3/20
  else if t = "make_purchase" then -(1/10)
  else if t = "upgrade_plan" then -(1/5)
  else if t = "login" ∨ t = "view_feature" then -(1/20)
  else 0

/-- Exact-arithmetic model of `np.linspace(a, b, n)` (endpoint included):
for `n ≥ 2` the value at index `i` is `a + (b - a) * i / (n - 1)`;
NumPy returns `[a]` for `n = 1` and `[]` for `n = 0`. -/
def linspaceQ (a b : ℚ) (n : ℕ) : List ℚ :=
  if n = 1 then [a]
  else (List.range n).map (fun i : ℕ => a + (b - a) * (i : ℚ) / ((n : ℚ) - 1))

/-- Python's slice `event_sequence[-customer_history_length:]`
(src/churn_model.py line 19) for a nonnegative slice parameter:
for `n ≥ 1` it is the last `min n (length)` elements, while for `n = 0`
Python's `seq[-0:]` is `seq[0:]`, i.e. the whole list. -/
def recentSlice (event_sequence : List Event) (n : ℕ) : List Event :=
  if n = 0 then event_sequence
  else event_sequence.drop (event_sequence.length - n)

/-- The raw weighted score accumulated by the loop of
`predict_churn_risk_simplified_rnn` (src/churn_model.py lines 21-37):
recency weights `np.linspace(0.1, 1.0, len(recent_events))`, and for each
considered event `score += contribution * weight`. -/
def rnnRawScore (event_sequence : List Event) (customer_history_length : ℕ) : ℚ :=
  let recent_events := recentSlice event_sequence customer_history_length
  let weights := linspaceQ (1/10) 1 recent_events.length
  (recent_events.zip weights).foldl
    (fun score p => score + eventContribution p.1.type * p.2) 0

/-- The scorer `predict_churn_risk_simplified_rnn` (src/churn_model.py
lines 6-42): the raw weighted score mapped through the logistic function
`1 / (1 + exp(-score))` and clamped by `min(1.0, max(0.0, churn_prob))`. -/
noncomputable def predict_churn_risk_simplified_rnn
    (event_sequence : List Event) (customer_history_length : ℕ := 30) : ℝ :=
  let churn_prob : ℝ :=
    1 / (1 + Real.exp (-((rnnRawScore event_sequence customer_history_length : ℚ) : ℝ)))
  min 1 (max 0 churn_prob)

/-- The contributions of a list of events, in order. -/
def magsOf (l : List Event) : List ℚ := l.map (fun e => eventContribution e.type)

/-- A calendar date, as produced by `datetime.strptime(s, '%Y-%m-%d')`. -/
structure Date where
  year : ℕ
  month : ℕ
  day : ℕ
deriving DecidableEq, Repr

/-- Gregorian leap-year rule used by Python's datetime. -/
def isLeapYear (y : ℕ) : Bool :=
  (y % 4 == 0 && y % 100 != 0) || y % 400 == 0

/-- Length in days of a month of the Gregorian calendar. -/
def daysInMonth (y m : ℕ) : ℕ :=
  if m = 2 then (if isLeapYear y then 29 else 28)
  else if m = 4 ∨ m = 6 ∨ m = 9 ∨ m = 11 then 30
  else 31

/-- The calendar successor of an in-range date.  Used only through
`addOneDay`, which guards the `datetime.max` overflow. -/
def nextDay (d : Date) : Date :=
  if d.day < daysInMonth d.year d.month then ⟨d.year, d.month, d.day + 1⟩
  else if d.month < 12 then ⟨d.year, d.month + 1, 1⟩
  else ⟨d.year + 1, 1, 1⟩

/-- Model of `+ timedelta(days=1)` (src/churn_model.py lines 69 and 82):
Python's datetime arithmetic raises OverflowError when the result would
pass `datetime.max` = 9999-12-31, embedded as `Except.error`. -/
def addOneDay (d : Date) : Except String Date :=
  if d = ⟨9999, 12, 31⟩ then Except.error "date value out of range"
  else Except.ok (nextDay d)

/-- Iterated `addOneDay`: the date `n` days later, or the overflow error
when any step passes `datetime.max`. -/
def advanceDays : ℕ → Date → Except String Date
  | 0, d => Except.ok d
  | k + 1, d =>
      match addOneDay d with
      | Except.ok d2 => advanceDays k d2
      | Except.error e => Except.error e

/-- Split a character list at a separator character. -/
def splitOnChar (sep : Char) : List Char → List Char → List (List Char)
  | [], acc => [acc.reverse]
  | c :: rest, acc =>
      if c = sep then acc.reverse :: splitOnChar sep rest []
      else splitOnChar sep rest (c :: acc)

/-- Whether a character is a decimal digit. -/
def isDigitCh (c : Char) : Bool := '0' ≤ c && c ≤ '9'

/-- The natural number denoted by a list of decimal digits. -/
def natOfDigits (l : List Char) : ℕ :=
  l.foldl (fun n c => 10 * n + (c.toNat - 48)) 0

/-- Model of `datetime.strptime(s, '%Y-%m-%d')` (src/churn_model.py
line 69): CPython matches `%Y` as exactly four ASCII digits and `%m`,
`%d` as at most two, separated by literal dashes with nothing left over,
and the matched values must then form a valid `datetime` date (month
1..12, day within the month, year at least MINYEAR = 1; at most four
digits keeps the year at most MAXYEAR = 9999).  Any other string raises
ValueError, embedded as `none`. -/
def parseDate (s : String) : Option Date :=
  match splitOnChar '-' s.data [] with
  | [ys, ms, ds] =>
      if ys.length = 4 && 1 ≤ ms.length && ms.length ≤ 2
         && 1 ≤ ds.length && ds.length ≤ 2
         && ys.all isDigitCh && ms.all isDigitCh && ds.all isDigitCh then
        let y := natOfDigits ys
        let m := natOfDigits ms
        let d := natOfDigits ds
        if 1 ≤ y && 1 ≤ m && m ≤ 12 && 1 ≤ d && d ≤ daysInMonth y m
        then some ⟨y, m, d⟩
        else none
      else none
  | _ => none

/-- Left-pad a string with zeros to a given width. -/
def zfill (w : ℕ) (s : String) : String :=
  String.mk (List.replicate (w - s.length) '0') ++ s

/-- Model of `date.strftime('%Y-%m-%d')`: zero-padded 4-digit year and
2-digit month and day. -/
def formatDate (d : Date) : String :=
  zfill 4 (toString d.year) ++ "-" ++ zfill 2 (toString d.month) ++ "-" ++ zfill 2 (toString d.day)

/-- The vocabulary of `random.choice(['login', 'view_feature',
'make_purchase', 'support_query'])` in src/churn_model.py line 79. -/
def positiveEventTypes : List String :=
  ["login", "view_feature", "make_purchase", "support_query"]

/-- The event type selected by a derandomised `random.choice` draw. -/
def chooseEvent (c : Fin 4) : String :=
  positiveEventTypes.get (Fin.cast (by rfl) c)

/-- A derandomised trial draw: for each forecast day, the value of
`random.random()` (a rational in place of the float in [0,1)) and the
index drawn by `random.choice` over the four positive event types. -/
def TrialDraw : Type := ℕ → ℚ × Fin 4

/-- The customer record fields read by `monte_carlo_churn_prediction`
(the source passes a dict with further keys the core never reads). -/
structure CustomerData where
  events : List Event
  last_activity_date : String

/-- One trial's inner loop (src/churn_model.py lines 71-83), with the
cursor date threaded through: for each remaining forecast day, with
`activity_prob = 0.6 * (1 - current_risk)` the day's event is one
positive type drawn when `random.random() < activity_prob` and
`inactivity` otherwise, dated at the cursor; the cursor then advances
one day (line 82), and an OverflowError there aborts the whole trial,
discarding the events appended so far, as a raised exception does. -/
noncomputable def simLoop (current_risk : ℝ) (draw : TrialDraw) :
    List ℕ → Date → Except String (List Event)
  | [], _ => Except.ok []
  | day_forecast :: rest, sim_current_date =>
      let activity_prob : ℝ := 3/5 * (1 - current_risk)
      let ev : Event :=
        if ((draw day_forecast).1 : ℝ) < activity_prob then
          ⟨formatDate sim_current_date, chooseEvent (draw day_forecast).2⟩
        else
          ⟨formatDate sim_current_date, "inactivity"⟩
      match addOneDay sim_current_date with
      | Except.ok next =>
          match simLoop current_risk draw rest next with
          | Except.ok tail => Except.ok (ev :: tail)
          | Except.error e => Except.error e
      | Except.error e => Except.error e

/-- The event list the inner loop produces on the runs where no date
overflows: one event per day, dated at the pure cursor. -/
noncomputable def simLoopValue (current_risk : ℝ) (draw : TrialDraw) :
    List ℕ → Date → List Event
  | [], _ => []
  | day_forecast :: rest, sim_current_date =>
      (if ((draw day_forecast).1 : ℝ) < 3/5 * (1 - current_risk) then
        (⟨formatDate sim_current_date, chooseEvent (draw day_forecast).2⟩ : Event)
      else
        ⟨formatDate sim_current_date, "inactivity"⟩)
        :: simLoopValue current_risk draw rest (nextDay sim_current_date)

/-- One Monte Carlo trial (src/churn_model.py lines 66-89): parse the
last activity date (ValueError propagates as `Except.error`), advance it
one day (line 69, where OverflowError can already raise), run the inner
loop, and rescore the concatenation
`customer_data['events'] + simulated_events_for_forecast` with the
scorer's default window. -/
noncomputable def monteCarloTrial
    (customer_data : CustomerData) (current_risk : ℝ) (forecast_days : ℤ)
    (draw : TrialDraw) : Except String ℝ :=
  match parseDate customer_data.last_activity_date with
  | none =>
      Except.error ("time data " ++ customer_data.last_activity_date ++
        " does not match format %Y-%m-%d")
  | some d =>
      match addOneDay d with
      | Except.error e => Except.error e
      | Except.ok sim_current_date =>
          match simLoop current_risk draw (List.range forecast_days.toNat)
              sim_current_date with
          | Except.error e => Except.error e
          | Except.ok simulated_events_for_forecast =>
              Except.ok (predict_churn_risk_simplified_rnn
                (customer_data.events ++ simulated_events_for_forecast) 30)

/-- Model of `np.mean` on a list of reals (0 when the list is empty,
where NumPy reports NaN with a warning; no claim depends on that value). -/
noncomputable def listMean (l : List ℝ) : ℝ := l.sum / l.length

/-- Model of `np.std` (population standard deviation, ddof = 0). -/
noncomputable def listStd (l : List ℝ) : ℝ :=
  Real.sqrt ((l.map (fun x => (x - listMean l) ^ 2)).sum / l.length)

/-- The forecaster `monte_carlo_churn_prediction` (src/churn_model.py
lines 44-91).  The two integer parameters are Python ints; a loop
`for _ in range(n)` with `n ≤ 0` runs zero times, modelled by `Int.toNat`.
The oracle gives each simulation index its trial draw.  The source
returns `(np.mean(probs), np.std(probs), probs)`. -/
noncomputable def monte_carlo_churn_prediction
    (customer_data : CustomerData) (num_simulations : ℤ := 100)
    (forecast_days : ℤ := 90) (oracle : ℕ → TrialDraw := fun _ _ => (0, 0)) :
    Except String (ℝ × ℝ × List ℝ) := do
  let current_risk := predict_churn_risk_simplified_rnn customer_data.events 30
  let churn_probabilities ← (List.range num_simulations.toNat).mapM
    (fun sim => monteCarloTrial customer_data current_risk forecast_days (oracle sim))
  return (listMean churn_probabilities, listStd churn_probabilities, churn_probabilities)

/-- The value recorded by one successful trial of the forecaster: the
rescoring of history plus synthetic future, with the baseline risk
computed from the history alone. -/
noncomputable def trialValue (customer_data : CustomerData) (forecast_days : ℤ)
    (oracle : ℕ → TrialDraw) (d : Date) (sim : ℕ) : ℝ :=
  predict_churn_risk_simplified_rnn
    (customer_data.events ++
      simLoopValue (predict_churn_risk_simplified_rnn customer_data.events 30)
        (oracle sim) (List.range forecast_days.toNat) (nextDay d)) 30

/-! ### Helper lemmas about the scorer -/

theorem foldl_score_eq (l : List (Event × ℚ)) (a : ℚ) :
    l.foldl (fun score p => score + eventContribution p.1.type * p.2) a
      = a + (l.map (fun p => eventContribution p.1.type * p.2)).sum := by
  induction l generalizing a with
  | nil => simp
  | cons x xs ih => simp [ih]; ring

theorem map_zip_contribution (l₁ : List Event) (l₂ : List ℚ) :
    ((l₁.zip l₂).map (fun p => eventContribution p.1.type * p.2)).sum
      = (((magsOf l₁).zip l₂).map (fun p => p.1 * p.2)).sum := by
  induction l₁ generalizing l₂ with
  | nil => simp [magsOf]
  | cons x xs ih => cases l₂ <;> simp [magsOf, ih]

theorem dot_sum_eq (m w : List ℚ) :
    ((m.zip w).map (fun p => p.1 * p.2)).sum
      = ∑ i in Finset.range (min m.length w.length), m.getD i 0 * w.getD i 0 := by
  induction m generalizing w with
  | nil => simp
  | cons x xs ih =>
    cases w with
    | nil => simp
    | cons y ys =>
      simp only [List.zip_cons_cons, List.map_cons, List.sum_cons, List.length_cons,
        Nat.succ_min_succ, Finset.sum_range_succ', List.getD_cons_succ, List.getD_cons_zero]
      rw [ih ys]
      ring

theorem linspaceQ_length (a b : ℚ) (n : ℕ) : (linspaceQ a b n).length = n := by
  unfold linspaceQ
  split_ifs with h
  · simp [h]
  · rw [List.length_map, List.length_range]

theorem linspaceQ_getD (a b : ℚ) {n i : ℕ} (h2 : 2 ≤ n) (hi : i < n) :
    (linspaceQ a b n).getD i 0 = a + (b - a) * (i : ℚ) / ((n : ℚ) - 1) := by
  unfold linspaceQ
  rw [if_neg (by omega)]
  have hlen : i < ((List.range n).map (fun j : ℕ => a + (b - a) * (j : ℚ) / ((n : ℚ) - 1))).length := by
    rw [List.length_map, List.length_range]; exact hi
  rw [List.getD_eq_getElem _ _ hlen, List.getElem_map, List.getElem_range]

theorem rnnRawScore_eq_sum (h : List Event) (w : ℕ) :
    rnnRawScore h w
      = ∑ i in Finset.range (recentSlice h w).length,
          (magsOf (recentSlice h w)).getD i 0
            * (linspaceQ (1/10) 1 (recentSlice h w).length).getD i 0 := by
  show ((recentSlice h w).zip (linspaceQ (1/10) 1 (recentSlice h w).length)).foldl
      (fun score p => score + eventContribution p.1.type * p.2) 0 = _
  rw [foldl_score_eq, zero_add, map_zip_contribution, dot_sum_eq]
  congr 1
  simp [magsOf, linspaceQ_length]

theorem eventContribution_bounds (t : String) :
    -(1/5) ≤ eventContribution t ∧ eventContribution t ≤ 1/5 := by
  unfold eventContribution
  split_ifs <;> norm_num

theorem magsOf_getD_bounds (l : List Event) (i : ℕ) :
    -(1/5) ≤ (magsOf l).getD i 0 ∧ (magsOf l).getD i 0 ≤ 1/5 := by
  by_cases hi : i < (magsOf l).length
  · rw [List.getD_eq_getElem _ _ hi]
    unfold magsOf
    rw [List.getElem_map]
    exact eventContribution_bounds _
  · rw [List.getD_eq_default _ _ (by omega)]
    norm_num

theorem predict_eq_clamp (h : List Event) (w : ℕ) :
    predict_churn_risk_simplified_rnn h w
      = min 1 (max 0 (1 / (1 + Real.exp (-((rnnRawScore h w : ℚ) : ℝ))))) := rfl

theorem predict_mono {h₁ h₂ : List Event} {w₁ w₂ : ℕ}
    (hr : rnnRawScore h₁ w₁ ≤ rnnRawScore h₂ w₂) :
    predict_churn_risk_simplified_rnn h₁ w₁ ≤ predict_churn_risk_simplified_rnn h₂ w₂ := by
  rw [predict_eq_clamp, predict_eq_clamp]
  have e1 : Real.exp (-((rnnRawScore h₂ w₂ : ℚ) : ℝ))
      ≤ Real.exp (-((rnnRawScore h₁ w₁ : ℚ) : ℝ)) :=
    Real.exp_le_exp.mpr (neg_le_neg (by exact_mod_cast hr))
  have p2 : (0 : ℝ) < 1 + Real.exp (-((rnnRawScore h₂ w₂ : ℚ) : ℝ)) := by positivity
  have hdiv : 1 / (1 + Real.exp (-((rnnRawScore h₁ w₁ : ℚ) : ℝ)))
      ≤ 1 / (1 + Real.exp (-((rnnRawScore h₂ w₂ : ℚ) : ℝ))) :=
    one_div_le_one_div_of_le p2 (by linarith)
  exact min_le_min le_rfl (max_le_max le_rfl hdiv)

theorem predict_strict_mono {h₁ h₂ : List Event} {w₁ w₂ : ℕ}
    (hr : rnnRawScore h₁ w₁ < rnnRawScore h₂ w₂) :
    predict_churn_risk_simplified_rnn h₁ w₁ < predict_churn_risk_simplified_rnn h₂ w₂ := by
  rw [predict_eq_clamp, predict_eq_clamp]
  have e1 : Real.exp (-((rnnRawScore h₂ w₂ : ℚ) : ℝ))
      < Real.exp (-((rnnRawScore h₁ w₁ : ℚ) : ℝ)) :=
    Real.exp_lt_exp.mpr (neg_lt_neg (by exact_mod_cast hr))
  have p1 : (0 : ℝ) < 1 + Real.exp (-((rnnRawScore h₁ w₁ : ℚ) : ℝ)) := by positivity
  have p2 : (0 : ℝ) < 1 + Real.exp (-((rnnRawScore h₂ w₂ : ℚ) : ℝ)) := by positivity
  have hdiv : 1 / (1 + Real.exp (-((rnnRawScore h₁ w₁ : ℚ) : ℝ)))
      < 1 / (1 + Real.exp (-((rnnRawScore h₂ w₂ : ℚ) : ℝ))) :=
    one_div_lt_one_div_of_lt p2 (by linarith)
  have b₁ : (0 : ℝ) < 1 / (1 + Real.exp (-((rnnRawScore h₁ w₁ : ℚ) : ℝ))) := by positivity
  have b₂ : 1 / (1 + Real.exp (-((rnnRawScore h₂ w₂ : ℚ) : ℝ))) < 1 := by
    rw [div_lt_one p2]
    have := Real.exp_pos (-((rnnRawScore h₂ w₂ : ℚ) : ℝ))
    linarith
  rw [max_eq_right b₁.le, max_eq_right (by linarith : (0:ℝ) ≤ _),
    min_eq_right (by linarith : (1 : ℝ) / _ ≤ 1), min_eq_right b₂.le]
  exact hdiv

theorem predict_mem_unit (h : List Event) (w : ℕ) :
    0 ≤ predict_churn_risk_simplified_rnn h w ∧ predict_churn_risk_simplified_rnn h w ≤ 1 := by
  rw [predict_eq_clamp]
  exact ⟨le_min (by norm_num) (le_max_left 0 _), min_le_left _ _⟩

/-! ### Claims about the scorer -/

/-- C8 (confirmed): calling the scorer on an empty event history returns
exactly 0.5, for any window: zero considered events give a running score
of 0 and the sigmoid of 0 is 0.5. -/
theorem empty_history_score_half (w : ℕ) :
    predict_churn_risk_simplified_rnn [] w = 1/2 := by
  have raw : rnnRawScore [] w = 0 := by
    unfold rnnRawScore recentSlice
    split_ifs <;> simp
  rw [predict_eq_clamp, raw]
  norm_num [Real.exp_zero]

/-- C1 counterexample: a history with exactly one event does not receive
recency weight 1.0: the raw score of a single inactivity event is
0.2 * 0.1 = 0.02, not 1.0 * 0.2 (NumPy's single-point linspace yields the
lower endpoint 0.1). -/
theorem single_event_weight_not_one :
    rnnRawScore [⟨"2024-06-15", "inactivity"⟩] 30 ≠ 1 * eventContribution "inactivity" := by
  have h1 : rnnRawScore [⟨"2024-06-15", "inactivity"⟩] 30 = 1/50 := by
    norm_num [rnnRawScore, recentSlice, linspaceQ, eventContribution]
  have h2 : eventContribution "inactivity" = 1/5 := by norm_num [eventContribution]
  rw [h1, h2]
  norm_num

/-- C1 (corrected): with exactly one considered event, its recency weight
is 0.1 (the lower endpoint of the linear space, which NumPy returns for a
single point), so its contribution to the running score is
0.1 * magnitude(type). -/
theorem single_event_weight_lower_bound (h : List Event) (w : ℕ) (e : Event)
    (hrec : recentSlice h w = [e]) :
    rnnRawScore h w = eventContribution e.type * (1/10) := by
  show ((recentSlice h w).zip (linspaceQ (1/10) 1 (recentSlice h w).length)).foldl
      (fun score p => score + eventContribution p.1.type * p.2) 0 = _
  rw [hrec]
  simp [linspaceQ]

/-- C1 witness: the single-event weight theorem applied to a concrete
one-event history. -/
theorem single_event_weight_lower_bound_witness :
    rnnRawScore [⟨"2024-06-15", "inactivity"⟩] 30 = eventContribution "inactivity" * (1/10) :=
  single_event_weight_lower_bound [⟨"2024-06-15", "inactivity"⟩] 30
    ⟨"2024-06-15", "inactivity"⟩ rfl

/-- C4 counterexample: with window 0 the source slice `seq[-0:]` is the
whole history, not the last `min(0, len)` = 0 events: prepending an older
event changes the result. -/
theorem window_zero_counterexample :
    predict_churn_risk_simplified_rnn
        ([⟨"2024-06-01", "inactivity"⟩] ++ [⟨"2024-06-02", "inactivity"⟩]) 0
      ≠ predict_churn_risk_simplified_rnn [⟨"2024-06-02", "inactivity"⟩] 0 := by
  have e1 : rnnRawScore [⟨"2024-06-02", "inactivity"⟩] 0 = 1/50 := by
    norm_num [rnnRawScore, recentSlice, linspaceQ, eventContribution]
  have e2 : rnnRawScore ([⟨"2024-06-01", "inactivity"⟩] ++ [⟨"2024-06-02", "inactivity"⟩]) 0
      = 11/50 := by
    norm_num [rnnRawScore, recentSlice, linspaceQ, eventContribution, List.range_succ]
  have hr : rnnRawScore [⟨"2024-06-02", "inactivity"⟩] 0
      < rnnRawScore ([⟨"2024-06-01", "inactivity"⟩] ++ [⟨"2024-06-02", "inactivity"⟩]) 0 := by
    rw [e1, e2]
    norm_num
  exact (predict_strict_mono hr).ne'

/-- C4 (corrected): for every window w ≥ 1, the scorer's result depends
only on the last min(w, len(history)) events: prepending arbitrary older
events in front of a history that already fills the window leaves the
result unchanged.  (The claim fails for w = 0, where Python's `seq[-0:]`
is the whole list.) -/
theorem window_prepend_invariant (w : ℕ) (old h : List Event)
    (hw : 1 ≤ w) (hlen : w ≤ h.length) :
    predict_churn_risk_simplified_rnn (old ++ h) w = predict_churn_risk_simplified_rnn h w := by
  have hslice : recentSlice (old ++ h) w = recentSlice h w := by
    unfold recentSlice
    rw [if_neg (by omega), if_neg (by omega), List.length_append]
    have harith : old.length + h.length - w = old.length + (h.length - w) := by omega
    rw [harith, List.drop_append]
  have hraw : rnnRawScore (old ++ h) w = rnnRawScore h w := by
    unfold rnnRawScore
    rw [hslice]
  rw [predict_eq_clamp, predict_eq_clamp, hraw]

/-- C4 witness: the windowing theorem applied at window 1 to a concrete
two-event history. -/
theorem window_prepend_invariant_witness :
    predict_churn_risk_simplified_rnn
        ([⟨"2024-06-01", "login"⟩] ++ [⟨"2024-06-02", "inactivity"⟩]) 1
      = predict_churn_risk_simplified_rnn [⟨"2024-06-02", "inactivity"⟩] 1 :=
  window_prepend_invariant 1 [⟨"2024-06-01", "login"⟩] [⟨"2024-06-02", "inactivity"⟩]
    (by decide) (by decide)

theorem magsOf_eq_of_types {l₁ l₂ : List Event}
    (ht : l₁.map Event.type = l₂.map Event.type) : magsOf l₁ = magsOf l₂ := by
  unfold magsOf
  calc l₁.map (fun e => eventContribution e.type)
      = (l₁.map Event.type).map eventContribution := by
        rw [List.map_map]; rfl
    _ = (l₂.map Event.type).map eventContribution := by rw [ht]
    _ = l₂.map (fun e => eventContribution e.type) := by
        rw [List.map_map]; rfl

/-- C10 (confirmed): the scorer depends only on the ordered sequence of
event types: two histories with pairwise-equal types and arbitrary dates
receive the same score, for every window. -/
theorem score_ignores_dates (h₁ h₂ : List Event) (w : ℕ)
    (ht : h₁.map Event.type = h₂.map Event.type) :
    predict_churn_risk_simplified_rnn h₁ w = predict_churn_risk_simplified_rnn h₂ w := by
  have hlen : h₁.length = h₂.length := by
    have hc := congrArg List.length ht
    rw [List.length_map, List.length_map] at hc
    exact hc
  have hmags : magsOf (recentSlice h₁ w) = magsOf (recentSlice h₂ w) := by
    unfold recentSlice
    split_ifs with h0
    · exact magsOf_eq_of_types ht
    · refine magsOf_eq_of_types ?_
      rw [List.map_drop, List.map_drop, ht, hlen]
  have hslen : (recentSlice h₁ w).length = (recentSlice h₂ w).length := by
    have hc := congrArg List.length hmags
    unfold magsOf at hc
    rw [List.length_map, List.length_map] at hc
    exact hc
  have hraw : rnnRawScore h₁ w = rnnRawScore h₂ w := by
    rw [rnnRawScore_eq_sum, rnnRawScore_eq_sum, hmags, hslen]
  rw [predict_eq_clamp, predict_eq_clamp, hraw]

/-- C10 witness: the date-independence theorem applied to two concrete
one-event histories differing only in their dates. -/
theorem score_ignores_dates_witness :
    predict_churn_risk_simplified_rnn [⟨"2024-01-01", "login"⟩] 30
      = predict_churn_risk_simplified_rnn [⟨"1999-12-31", "login"⟩] 30 :=
  score_ignores_dates [⟨"2024-01-01", "login"⟩] [⟨"1999-12-31", "login"⟩] 30 rfl

theorem sum_range_cast (n : ℕ) :
    ∑ i in Finset.range n, (i : ℚ) = (n : ℚ) * ((n : ℚ) - 1) / 2 := by
  induction n with
  | zero => simp
  | succ k ih =>
    rw [Finset.sum_range_succ, ih]
    push_cast
    ring

theorem append_upgrade_small (m : List ℚ)
    (hb : ∀ i, -(1/5) ≤ m.getD i 0 ∧ m.getD i 0 ≤ 1/5) :
    ∑ i in Finset.range (m.length + 1),
        (m ++ [-(1/5)]).getD i 0 * (linspaceQ (1/10) 1 (m.length + 1)).getD i 0
      ≤ ∑ i in Finset.range m.length,
          m.getD i 0 * (linspaceQ (1/10) 1 m.length).getD i 0 := by
  by_cases h0 : m.length = 0
  · have hm : m = [] := List.length_eq_zero.mp h0
    subst hm
    norm_num [linspaceQ, Finset.sum_range_one]
  by_cases h1 : m.length = 1
  · obtain ⟨x, hm⟩ := List.length_eq_one.mp h1
    subst hm
    have hx := hb 0
    simp only [List.getD_cons_zero] at hx
    norm_num [linspaceQ, List.range_succ, Finset.sum_range_succ, Finset.sum_range_one]
  have h2 : 2 ≤ m.length := by omega
  have hNpos : (0 : ℚ) < (m.length : ℚ) := by exact_mod_cast (by omega : 0 < m.length)
  have hN1pos : (0 : ℚ) < (m.length : ℚ) - 1 := by
    have : (2 : ℚ) ≤ (m.length : ℚ) := by exact_mod_cast h2
    linarith
  have hW' : ∀ i, i < m.length →
      (linspaceQ (1/10) 1 (m.length + 1)).getD i 0
        = 1/10 + (9/10) * (i : ℚ) / (m.length : ℚ) := by
    intro i hi
    rw [linspaceQ_getD _ _ (by omega) (by omega)]
    push_cast
    rw [show ((m.length : ℚ) + 1 - 1) = (m.length : ℚ) from by ring]
    norm_num
  have hW : ∀ i, i < m.length →
      (linspaceQ (1/10) 1 m.length).getD i 0
        = 1/10 + (9/10) * (i : ℚ) / ((m.length : ℚ) - 1) := by
    intro i hi
    rw [linspaceQ_getD _ _ h2 hi]
    norm_num
  rw [Finset.sum_range_succ]
  have hlast : (m ++ [-(1/5)]).getD m.length 0 = -(1/5) := by
    rw [List.getD_append_right _ _ _ _ (le_refl m.length)]
    simp
  have hlastW : (linspaceQ (1/10) 1 (m.length + 1)).getD m.length 0 = 1 := by
    rw [linspaceQ_getD _ _ (by omega) (by omega)]
    push_cast
    rw [show ((m.length : ℚ) + 1 - 1) = (m.length : ℚ) from by ring]
    field_simp
    ring
  have hbody : ∀ i ∈ Finset.range m.length,
      (m ++ [-(1/5)]).getD i 0 * (linspaceQ (1/10) 1 (m.length + 1)).getD i 0
        = m.getD i 0 * (1/10 + (9/10) * (i : ℚ) / (m.length : ℚ)) := by
    intro i hi
    rw [Finset.mem_range] at hi
    rw [List.getD_append _ _ _ _ hi, hW' i hi]
  rw [Finset.sum_congr rfl hbody, hlast, hlastW]
  have hbody2 : ∀ i ∈ Finset.range m.length,
      m.getD i 0 * (linspaceQ (1/10) 1 m.length).getD i 0
        = m.getD i 0 * (1/10 + (9/10) * (i : ℚ) / ((m.length : ℚ) - 1)) := by
    intro i hi
    rw [Finset.mem_range] at hi
    rw [hW i hi]
  rw [Finset.sum_congr rfl hbody2]
  have hterm : ∀ i ∈ Finset.range m.length,
      m.getD i 0 * (1/10 + (9/10) * (i : ℚ) / (m.length : ℚ))
          - m.getD i 0 * (1/10 + (9/10) * (i : ℚ) / ((m.length : ℚ) - 1))
        ≤ (9/50) * (i : ℚ) / ((m.length : ℚ) * ((m.length : ℚ) - 1)) := by
    intro i hi
    have hdiff : (1/10 + (9/10) * (i : ℚ) / (m.length : ℚ))
        - (1/10 + (9/10) * (i : ℚ) / ((m.length : ℚ) - 1))
          = -((9/10) * (i : ℚ) / ((m.length : ℚ) * ((m.length : ℚ) - 1))) := by
      field_simp
      ring
    have hfacpos : (0 : ℚ) ≤ (9/10) * (i : ℚ) / ((m.length : ℚ) * ((m.length : ℚ) - 1)) := by
      apply div_nonneg (by positivity)
      exact le_of_lt (mul_pos hNpos hN1pos)
    have hfac : -((9/10) * (i : ℚ) / ((m.length : ℚ) * ((m.length : ℚ) - 1))) ≤ 0 := by
      linarith
    calc m.getD i 0 * (1/10 + (9/10) * (i : ℚ) / (m.length : ℚ))
          - m.getD i 0 * (1/10 + (9/10) * (i : ℚ) / ((m.length : ℚ) - 1))
        = m.getD i 0 * ((1/10 + (9/10) * (i : ℚ) / (m.length : ℚ))
            - (1/10 + (9/10) * (i : ℚ) / ((m.length : ℚ) - 1))) := by ring
      _ = m.getD i 0 * (-((9/10) * (i : ℚ) / ((m.length : ℚ) * ((m.length : ℚ) - 1)))) := by
          rw [hdiff]
      _ ≤ (-(1/5)) * (-((9/10) * (i : ℚ) / ((m.length : ℚ) * ((m.length : ℚ) - 1)))) :=
          mul_le_mul_of_nonpos_right (hb i).1 hfac
      _ = (9/50) * (i : ℚ) / ((m.length : ℚ) * ((m.length : ℚ) - 1)) := by ring
  have key := Finset.sum_le_sum hterm
  have hconstsum : ∑ i in Finset.range m.length,
      (9/50) * (i : ℚ) / ((m.length : ℚ) * ((m.length : ℚ) - 1)) = 9/100 := by
    have hc : ∀ i ∈ Finset.range m.length,
        (9/50) * (i : ℚ) / ((m.length : ℚ) * ((m.length : ℚ) - 1))
          = ((9/50) / ((m.length : ℚ) * ((m.length : ℚ) - 1))) * (i : ℚ) := by
      intro i _
      ring
    rw [Finset.sum_congr rfl hc, ← Finset.mul_sum, sum_range_cast]
    field_simp
    ring
  rw [hconstsum, Finset.sum_sub_distrib] at key
  linarith

theorem append_upgrade_big (x : ℚ) (t : List ℚ) (ht29 : t.length = 29)
    (hx : -(1/5) ≤ x)
    (hb : ∀ i, -(1/5) ≤ t.getD i 0 ∧ t.getD i 0 ≤ 1/5) :
    ∑ i in Finset.range 30, (t ++ [-(1/5)]).getD i 0 * (linspaceQ (1/10) 1 30).getD i 0
      ≤ ∑ i in Finset.range 30, (x :: t).getD i 0 * (linspaceQ (1/10) 1 30).getD i 0 := by
  have hW : ∀ i, i < 30 → (linspaceQ (1/10) 1 30).getD i 0
      = 1/10 + (9/10) * (i : ℚ) / 29 := by
    intro i hi
    rw [linspaceQ_getD _ _ (by omega) hi]
    norm_num
  have hLHS : ∑ i in Finset.range 30,
      (t ++ [-(1/5)]).getD i 0 * (linspaceQ (1/10) 1 30).getD i 0
        = (∑ i in Finset.range 29, t.getD i 0 * (linspaceQ (1/10) 1 30).getD i 0)
            + (-(1/5)) * 1 := by
    have hpeel := Finset.sum_range_succ
      (fun i => (t ++ [-(1/5)]).getD i 0 * (linspaceQ (1/10) 1 30).getD i 0) 29
    rw [show (29 : ℕ) + 1 = 30 from rfl] at hpeel
    rw [hpeel]
    congr 1
    · apply Finset.sum_congr rfl
      intro i hi
      rw [Finset.mem_range] at hi
      rw [List.getD_append _ _ _ _ (by omega)]
    · rw [List.getD_append_right _ _ _ _ (by omega : t.length ≤ 29),
        show 29 - t.length = 0 from by omega, hW 29 (by omega)]
      norm_num
  have hRHS : ∑ i in Finset.range 30,
      (x :: t).getD i 0 * (linspaceQ (1/10) 1 30).getD i 0
        = (∑ i in Finset.range 29, t.getD i 0 * (linspaceQ (1/10) 1 30).getD (i + 1) 0)
            + x * (1/10) := by
    have hpeel := Finset.sum_range_succ'
      (fun i => (x :: t).getD i 0 * (linspaceQ (1/10) 1 30).getD i 0) 29
    rw [show (29 : ℕ) + 1 = 30 from rfl] at hpeel
    rw [hpeel]
    congr 1
    rw [List.getD_cons_zero, hW 0 (by norm_num)]
    norm_num
  rw [hLHS, hRHS]
  have hterm : ∀ i ∈ Finset.range 29,
      t.getD i 0 * (linspaceQ (1/10) 1 30).getD i 0
          - t.getD i 0 * (linspaceQ (1/10) 1 30).getD (i + 1) 0
        ≤ 9/1450 := by
    intro i hi
    rw [Finset.mem_range] at hi
    have hWi := hW i (by omega)
    have hWi1 := hW (i + 1) (by omega)
    have hdiff : (linspaceQ (1/10) 1 30).getD i 0 - (linspaceQ (1/10) 1 30).getD (i + 1) 0
        = -(9/290) := by
      rw [hWi, hWi1]
      push_cast
      ring
    calc t.getD i 0 * (linspaceQ (1/10) 1 30).getD i 0
          - t.getD i 0 * (linspaceQ (1/10) 1 30).getD (i + 1) 0
        = t.getD i 0 * ((linspaceQ (1/10) 1 30).getD i 0
            - (linspaceQ (1/10) 1 30).getD (i + 1) 0) := by ring
      _ = t.getD i 0 * (-(9/290)) := by rw [hdiff]
      _ ≤ (-(1/5)) * (-(9/290)) :=
          mul_le_mul_of_nonpos_right (hb i).1 (by norm_num)
      _ = 9/1450 := by norm_num
  have key := Finset.sum_le_sum hterm
  rw [Finset.sum_sub_distrib, Finset.sum_const, Finset.card_range, nsmul_eq_mul] at key
  push_cast at key
  linarith

theorem rawScore_append_upgrade (h : List Event) (d : String) :
    rnnRawScore (h ++ [⟨d, "upgrade_plan"⟩]) 30 ≤ rnnRawScore h 30 := by
  rw [rnnRawScore_eq_sum, rnnRawScore_eq_sum]
  by_cases hn : h.length ≤ 29
  · have hs1 : recentSlice h 30 = h := by
      unfold recentSlice
      rw [if_neg (by norm_num), show h.length - 30 = 0 from by omega, List.drop_zero]
    have hs2 : recentSlice (h ++ [⟨d, "upgrade_plan"⟩]) 30 = h ++ [⟨d, "upgrade_plan"⟩] := by
      unfold recentSlice
      rw [if_neg (by norm_num),
        show (h ++ [⟨d, "upgrade_plan"⟩] : List Event).length - 30 = 0 from by
          rw [List.length_append, List.length_singleton]; omega,
        List.drop_zero]
    rw [hs1, hs2]
    have hm : magsOf (h ++ [⟨d, "upgrade_plan"⟩]) = magsOf h ++ [-(1/5)] := by
      unfold magsOf
      rw [List.map_append]
      congr 1
    have hl1 : (h ++ [⟨d, "upgrade_plan"⟩] : List Event).length = (magsOf h).length + 1 := by
      rw [List.length_append, List.length_singleton]
      unfold magsOf
      rw [List.length_map]
    have hl2 : h.length = (magsOf h).length := by
      unfold magsOf
      rw [List.length_map]
    rw [hm, hl1, hl2]
    exact append_upgrade_small (magsOf h) (fun i => magsOf_getD_bounds h i)
  · have hs1 : recentSlice h 30 = h.drop (h.length - 30) := by
      unfold recentSlice
      rw [if_neg (by norm_num)]
    have hlenD : (h.drop (h.length - 30)).length = 30 := by
      rw [List.length_drop]
      omega
    cases hD : h.drop (h.length - 30) with
    | nil => rw [hD] at hlenD; simp at hlenD
    | cons x t =>
      have ht29 : t.length = 29 := by
        rw [hD] at hlenD
        simpa using hlenD
      have htdrop : t = h.drop (h.length - 29) := by
        have hdd := List.drop_drop 1 (h.length - 30) h
        rw [hD] at hdd
        simpa [show h.length - 30 + 1 = h.length - 29 from by omega] using hdd
      have hs2 : recentSlice (h ++ [⟨d, "upgrade_plan"⟩]) 30 = t ++ [⟨d, "upgrade_plan"⟩] := by
        unfold recentSlice
        rw [if_neg (by norm_num), List.length_append, List.length_singleton,
          show h.length + 1 - 30 = h.length - 29 from by omega,
          List.drop_append_of_le_length (by omega), ← htdrop]
      rw [hs1, hD, hs2]
      have hlt : (t ++ [⟨d, "upgrade_plan"⟩] : List Event).length = 30 := by
        rw [List.length_append, List.length_singleton, ht29]
      have hlx : (x :: t : List Event).length = 30 := by
        rw [List.length_cons, ht29]
      have hmt : magsOf (t ++ [⟨d, "upgrade_plan"⟩]) = magsOf t ++ [-(1/5)] := by
        unfold magsOf
        rw [List.map_append]
        congr 1
      have hmx : magsOf (x :: t) = eventContribution x.type :: magsOf t := by
        unfold magsOf
        rw [List.map_cons]
      rw [hlt, hlx, hmt, hmx]
      exact append_upgrade_big (eventContribution x.type) (magsOf t)
        (by unfold magsOf; rw [List.length_map, ht29])
        (eventContribution_bounds x.type).1
        (fun i => magsOf_getD_bounds t i)

/-- C3 (confirmed): appending one upgrade_plan event at the most-recent
position never increases the score (default window 30), for every history
and every date on the appended event. -/
theorem append_upgrade_event_le (h : List Event) (d : String) :
    predict_churn_risk_simplified_rnn (h ++ [⟨d, "upgrade_plan"⟩]) 30
      ≤ predict_churn_risk_simplified_rnn h 30 :=
  predict_mono (rawScore_append_upgrade h d)

/-! ### Helper lemmas about the forecaster -/

theorem mapM_ok_of (f : ℕ → Except String ℝ) (g : ℕ → ℝ) (l : List ℕ)
    (hf : ∀ i ∈ l, f i = Except.ok (g i)) :
    l.mapM f = Except.ok (l.map g) := by
  induction l with
  | nil => rfl
  | cons a as ih =>
    rw [List.mapM_cons, hf a (by simp), ih (fun i hi => hf i (by simp [hi]))]
    rfl

theorem mapM_error_of (f : ℕ → Except String ℝ) (e : String) (n : ℕ)
    (h0 : f 0 = Except.error e) (hn : 1 ≤ n) :
    (List.range n).mapM f = Except.error e := by
  obtain ⟨m, rfl⟩ : ∃ m, n = m + 1 := ⟨n - 1, by omega⟩
  rw [List.range_succ_eq_map, List.mapM_cons, h0]
  rfl

theorem listMean_nil : listMean [] = 0 := by
  simp [listMean]

theorem listStd_nil : listStd [] = 0 := by
  simp [listStd]

theorem addOneDay_ok {d : Date} (hmax : d ≠ ⟨9999, 12, 31⟩) :
    addOneDay d = Except.ok (nextDay d) := by
  unfold addOneDay
  rw [if_neg hmax]

theorem advanceDays_succ {k : ℕ} {d dEnd : Date}
    (h : advanceDays (k + 1) d = Except.ok dEnd) :
    addOneDay d = Except.ok (nextDay d)
      ∧ advanceDays k (nextDay d) = Except.ok dEnd := by
  unfold advanceDays at h
  cases haod : addOneDay d with
  | error e =>
    rw [haod] at h
    exact absurd h (by simp)
  | ok d2 =>
    have hd2 : d2 = nextDay d := by
      unfold addOneDay at haod
      by_cases hm : d = ⟨9999, 12, 31⟩
      · rw [if_pos hm] at haod
        exact absurd haod (by simp)
      · rw [if_neg hm] at haod
        injection haod with h2
        exact h2.symm
    rw [haod] at h
    subst hd2
    exact ⟨rfl, h⟩

theorem simLoop_ok_of (current_risk : ℝ) (draw : TrialDraw) :
    ∀ (days : List ℕ) (start dEnd : Date),
      advanceDays days.length start = Except.ok dEnd →
      simLoop current_risk draw days start
        = Except.ok (simLoopValue current_risk draw days start) := by
  intro days
  induction days with
  | nil =>
    intro start dEnd _
    rfl
  | cons day rest ih =>
    intro start dEnd hadv
    rw [List.length_cons] at hadv
    obtain ⟨haod, hrest⟩ := advanceDays_succ hadv
    simp only [simLoop, simLoopValue, haod, ih (nextDay start) dEnd hrest]

theorem monteCarloTrial_ok (customer_data : CustomerData) (current_risk : ℝ)
    (forecast_days : ℤ) (draw : TrialDraw) (d dEnd : Date)
    (hd : parseDate customer_data.last_activity_date = some d)
    (hrange : advanceDays (forecast_days.toNat + 1) d = Except.ok dEnd) :
    monteCarloTrial customer_data current_risk forecast_days draw
      = Except.ok (predict_churn_risk_simplified_rnn
          (customer_data.events ++
            simLoopValue current_risk draw (List.range forecast_days.toNat)
              (nextDay d)) 30) := by
  obtain ⟨haod, hrest⟩ := advanceDays_succ hrange
  have hsim := simLoop_ok_of current_risk draw (List.range forecast_days.toNat)
    (nextDay d) dEnd (by rwa [List.length_range])
  simp only [monteCarloTrial, hd, haod, hsim]

theorem monte_carlo_ok_eq (c : CustomerData) (N fd : ℤ) (oracle : ℕ → TrialDraw)
    (d dEnd : Date) (hd : parseDate c.last_activity_date = some d)
    (hrange : advanceDays (fd.toNat + 1) d = Except.ok dEnd) :
    monte_carlo_churn_prediction c N fd oracle
      = Except.ok
          (listMean ((List.range N.toNat).map (trialValue c fd oracle d)),
           listStd ((List.range N.toNat).map (trialValue c fd oracle d)),
           (List.range N.toNat).map (trialValue c fd oracle d)) := by
  have hm : (List.range N.toNat).mapM
      (fun sim => monteCarloTrial c (predict_churn_risk_simplified_rnn c.events 30)
        fd (oracle sim))
      = Except.ok ((List.range N.toNat).map (trialValue c fd oracle d)) := by
    apply mapM_ok_of
    intro i _
    exact monteCarloTrial_ok c _ fd (oracle i) d dEnd hd hrange
  simp only [monte_carlo_churn_prediction]
  rw [hm]
  rfl

theorem monte_carlo_error_eq (c : CustomerData) (N fd : ℤ) (oracle : ℕ → TrialDraw)
    (hd : parseDate c.last_activity_date = none) (hN : 1 ≤ N) :
    monte_carlo_churn_prediction c N fd oracle
      = Except.error ("time data " ++ c.last_activity_date ++
          " does not match format %Y-%m-%d") := by
  have h0 : (fun sim => monteCarloTrial c (predict_churn_risk_simplified_rnn c.events 30)
        fd (oracle sim)) 0
      = Except.error ("time data " ++ c.last_activity_date ++
          " does not match format %Y-%m-%d") := by
    show monteCarloTrial c _ fd (oracle 0) = _
    unfold monteCarloTrial
    rw [hd]
  have hm := mapM_error_of
    (fun sim => monteCarloTrial c (predict_churn_risk_simplified_rnn c.events 30)
      fd (oracle sim))
    ("time data " ++ c.last_activity_date ++ " does not match format %Y-%m-%d")
    N.toNat h0 (by omega)
  simp only [monte_carlo_churn_prediction]
  rw [hm]
  rfl

theorem monte_carlo_overflow_eq (c : CustomerData) (N fd : ℤ) (oracle : ℕ → TrialDraw)
    (d : Date) (hd : parseDate c.last_activity_date = some d)
    (hmax : d = ⟨9999, 12, 31⟩) (hN : 1 ≤ N) :
    monte_carlo_churn_prediction c N fd oracle
      = Except.error "date value out of range" := by
  have h0 : (fun sim => monteCarloTrial c (predict_churn_risk_simplified_rnn c.events 30)
        fd (oracle sim)) 0
      = Except.error "date value out of range" := by
    show monteCarloTrial c _ fd (oracle 0) = _
    unfold monteCarloTrial
    rw [hd, hmax]
    rfl
  have hm := mapM_error_of
    (fun sim => monteCarloTrial c (predict_churn_risk_simplified_rnn c.events 30)
      fd (oracle sim))
    "date value out of range" N.toNat h0 (by omega)
  simp only [monte_carlo_churn_prediction]
  rw [hm]
  rfl

theorem monte_carlo_zero_sims (c : CustomerData) (N fd : ℤ) (oracle : ℕ → TrialDraw)
    (hN : N ≤ 0) :
    monte_carlo_churn_prediction c N fd oracle = Except.ok (0, 0, []) := by
  have h0 : N.toNat = 0 := by omega
  simp only [monte_carlo_churn_prediction, h0, List.range_zero]
  rw [show (([] : List ℕ).mapM
      (fun sim => monteCarloTrial c (predict_churn_risk_simplified_rnn c.events 30)
        fd (oracle sim)))
    = Except.ok ([] : List ℝ) from rfl]
  rw [show ((Except.ok ([] : List ℝ) : Except String (List ℝ)) >>= fun
      churn_probabilities =>
        pure (listMean churn_probabilities, listStd churn_probabilities,
          churn_probabilities))
    = Except.ok (listMean [], listStd [], ([] : List ℝ)) from rfl]
  rw [listMean_nil, listStd_nil]

theorem monte_carlo_nonpos_days (c : CustomerData) (N : ℤ) (oracle : ℕ → TrialDraw)
    (fd : ℤ) (hfd : fd ≤ 0) :
    monte_carlo_churn_prediction c N fd oracle
      = monte_carlo_churn_prediction c N 0 oracle := by
  have h0 : fd.toNat = (0 : ℤ).toNat := by omega
  simp only [monte_carlo_churn_prediction, monteCarloTrial, h0]

/-! ### Claims about the forecaster -/

/-- C5 counterexample: at the parseable last activity date 9999-12-31
the per-trial advance `+ timedelta(days=1)` (src/churn_model.py line 69)
overflows datetime.max, so a call with num_simulations = 2 surfaces the
OverflowError instead of returning a 2-element samples list. -/
theorem overflow_breaks_sample_count :
    monte_carlo_churn_prediction ⟨[], "9999-12-31"⟩ 2 3 (fun _ _ => (0, 0))
      = Except.error "date value out of range" :=
  monte_carlo_overflow_eq ⟨[], "9999-12-31"⟩ 2 3 (fun _ _ => (0, 0)) ⟨9999, 12, 31⟩
    rfl rfl (by norm_num)

/-- C5 (corrected): for num_simulations N ≥ 1, forecast_days ≥ 0, a
parseable last activity date, and a horizon whose date cursor stays
within datetime's range (advancing forecast_days + 1 days from the
parsed date succeeds), the forecaster returns a samples list of exactly
N elements, each in [0,1]; moreover every scorer result lies in [0,1].
Without the in-range condition the source raises OverflowError at a date
advance and returns no samples. -/
theorem forecast_samples_length_and_bounds (c : CustomerData) (N fd : ℤ)
    (oracle : ℕ → TrialDraw) (d dEnd : Date)
    (hN : 1 ≤ N) (hfd : 0 ≤ fd) (hd : parseDate c.last_activity_date = some d)
    (hrange : advanceDays (fd.toNat + 1) d = Except.ok dEnd) :
    ∃ m s samples,
      monte_carlo_churn_prediction c N fd oracle = Except.ok (m, s, samples)
        ∧ (samples.length : ℤ) = N
        ∧ (∀ x ∈ samples, 0 ≤ x ∧ x ≤ 1)
        ∧ ∀ (h : List Event) (w : ℕ),
            0 ≤ predict_churn_risk_simplified_rnn h w
              ∧ predict_churn_risk_simplified_rnn h w ≤ 1 := by
  refine ⟨_, _, _, monte_carlo_ok_eq c N fd oracle d dEnd hd hrange, ?_, ?_, ?_⟩
  · rw [List.length_map, List.length_range]
    exact_mod_cast Int.toNat_of_nonneg (by omega)
  · intro x hx
    rw [List.mem_map] at hx
    obtain ⟨i, _, rfl⟩ := hx
    exact predict_mem_unit _ _
  · exact predict_mem_unit

/-- C5 witness: the length-and-bounds theorem applied to a concrete
customer with one simulation and zero forecast days. -/
theorem forecast_samples_length_and_bounds_witness :
    ∃ m s samples,
      monte_carlo_churn_prediction ⟨[⟨"2024-06-15", "login"⟩], "2024-06-15"⟩ 1 0
          (fun _ _ => (0, 0)) = Except.ok (m, s, samples)
        ∧ (samples.length : ℤ) = 1
        ∧ (∀ x ∈ samples, 0 ≤ x ∧ x ≤ 1)
        ∧ ∀ (h : List Event) (w : ℕ),
            0 ≤ predict_churn_risk_simplified_rnn h w
              ∧ predict_churn_risk_simplified_rnn h w ≤ 1 :=
  forecast_samples_length_and_bounds ⟨[⟨"2024-06-15", "login"⟩], "2024-06-15"⟩ 1 0
    (fun _ _ => (0, 0)) ⟨2024, 6, 15⟩ ⟨2024, 6, 16⟩ (by norm_num) (by norm_num) rfl rfl

/-- C6 counterexample: at the parseable last activity date 9999-12-31,
even forecast_days = 0 yields no samples: the advance at
src/churn_model.py line 69 runs before the inner loop and overflows, so
the forecaster surfaces the OverflowError instead of a baseline sample. -/
theorem overflow_breaks_zero_day_forecast :
    monte_carlo_churn_prediction ⟨[], "9999-12-31"⟩ 1 0 (fun _ _ => (0, 0))
      = Except.error "date value out of range" :=
  monte_carlo_overflow_eq ⟨[], "9999-12-31"⟩ 1 0 (fun _ _ => (0, 0)) ⟨9999, 12, 31⟩
    rfl rfl (by norm_num)

/-- C6 (corrected): with forecast_days = 0, a parseable last activity
date below datetime.max = 9999-12-31 (so the single date advance at the
start of each trial cannot overflow), and num_simulations N ≥ 1, every
sample equals the scorer's value on the original history (no synthetic
events are appended). -/
theorem forecast_zero_days_samples_eq_baseline (c : CustomerData) (N : ℤ)
    (oracle : ℕ → TrialDraw) (d : Date)
    (hN : 1 ≤ N) (hd : parseDate c.last_activity_date = some d)
    (hmax : d ≠ ⟨9999, 12, 31⟩) :
    ∃ m s samples,
      monte_carlo_churn_prediction c N 0 oracle = Except.ok (m, s, samples)
        ∧ ∀ x ∈ samples, x = predict_churn_risk_simplified_rnn c.events 30 := by
  have hrange : advanceDays ((0 : ℤ).toNat + 1) d = Except.ok (nextDay d) := by
    show advanceDays (0 + 1) d = _
    unfold advanceDays
    rw [addOneDay_ok hmax]
    rfl
  refine ⟨_, _, _, monte_carlo_ok_eq c N 0 oracle d (nextDay d) hd hrange, ?_⟩
  intro x hx
  rw [List.mem_map] at hx
  obtain ⟨i, _, rfl⟩ := hx
  unfold trialValue
  rw [show (List.range (0 : ℤ).toNat) = ([] : List ℕ) from rfl]
  rw [show simLoopValue (predict_churn_risk_simplified_rnn c.events 30) (oracle i)
      ([] : List ℕ) (nextDay d) = [] from rfl, List.append_nil]

/-- C6 witness: the zero-forecast theorem applied to a concrete customer. -/
theorem forecast_zero_days_samples_eq_baseline_witness :
    ∃ m s samples,
      monte_carlo_churn_prediction ⟨[⟨"2024-06-15", "login"⟩], "2024-06-15"⟩ 2 0
          (fun _ _ => (0, 0)) = Except.ok (m, s, samples)
        ∧ ∀ x ∈ samples,
            x = predict_churn_risk_simplified_rnn [⟨"2024-06-15", "login"⟩] 30 :=
  forecast_zero_days_samples_eq_baseline ⟨[⟨"2024-06-15", "login"⟩], "2024-06-15"⟩ 2
    (fun _ _ => (0, 0)) ⟨2024, 6, 15⟩ (by norm_num) rfl (by decide)

/-- C7 (confirmed): on every inner-loop run of a trial that returns its
synthetic events, each event has a type among login, view_feature,
make_purchase, support_query, inactivity, and in particular is never an
upgrade_plan event, for every risk value, draw, day list and start
date. -/
theorem simulated_future_vocabulary (risk : ℝ) (draw : TrialDraw) :
    ∀ (days : List ℕ) (start : Date) (evs : List Event),
      simLoop risk draw days start = Except.ok evs →
      ∀ e ∈ evs,
        e.type ∈ ["login", "view_feature", "make_purchase", "support_query", "inactivity"]
          ∧ e.type ≠ "upgrade_plan" := by
  intro days
  induction days with
  | nil =>
    intro start evs hok e he
    simp only [simLoop] at hok
    injection hok with h
    subst h
    exact absurd he (by simp)
  | cons day rest ih =>
    intro start evs hok e he
    simp only [simLoop] at hok
    cases haod : addOneDay start with
    | error msg =>
      simp only [haod] at hok
      exact Except.noConfusion hok
    | ok next =>
      simp only [haod] at hok
      cases hsim : simLoop risk draw rest next with
      | error msg =>
        simp only [hsim] at hok
        exact Except.noConfusion hok
      | ok tail =>
        simp only [hsim] at hok
        injection hok with h
        subst h
        rcases List.mem_cons.mp he with hhead | htail
        · subst hhead
          split
          · have hmem : chooseEvent (draw day).2 ∈ positiveEventTypes :=
              List.get_mem _ _ _
            constructor
            · simp only [positiveEventTypes, List.mem_cons, List.not_mem_nil,
                or_false] at hmem
              rcases hmem with h | h | h | h <;> simp [h]
            · intro hq
              dsimp only at hq
              rw [hq] at hmem
              simp [positiveEventTypes] at hmem
          · exact ⟨by simp, by simp⟩
        · exact ih next tail hsim e htail

/-- C7 witness: the vocabulary theorem applied to a concrete one-day run
that produces an inactivity event. -/
theorem simulated_future_vocabulary_witness :
    (⟨"2024-06-16", "inactivity"⟩ : Event).type
        ∈ ["login", "view_feature", "make_purchase", "support_query", "inactivity"]
      ∧ (⟨"2024-06-16", "inactivity"⟩ : Event).type ≠ "upgrade_plan" := by
  have hrun : simLoop 1 (fun _ => (1/2, 0)) [0] ⟨2024, 6, 16⟩
      = Except.ok [⟨"2024-06-16", "inactivity"⟩] := by
    simp only [simLoop]
    rw [if_neg (by norm_num)]
    rfl
  exact simulated_future_vocabulary 1 (fun _ => (1/2, 0)) [0] ⟨2024, 6, 16⟩
    [⟨"2024-06-16", "inactivity"⟩] hrun ⟨"2024-06-16", "inactivity"⟩ (by simp)

/-- C9 (confirmed): when the last activity date does not parse under the
strptime format, the forecaster (called with at least one simulation)
surfaces an error and returns no result. -/
theorem malformed_date_fails (c : CustomerData) (N fd : ℤ) (oracle : ℕ → TrialDraw)
    (hd : parseDate c.last_activity_date = none) (hN : 1 ≤ N) :
    ∃ msg, monte_carlo_churn_prediction c N fd oracle = Except.error msg :=
  ⟨_, monte_carlo_error_eq c N fd oracle hd hN⟩

/-- C9 witness: the failure theorem applied to a customer whose recorded
date has a two-digit year, which strptime's four-digit %Y rejects. -/
theorem malformed_date_fails_witness :
    ∃ msg, monte_carlo_churn_prediction ⟨[], "24-06-15"⟩ 100 90 (fun _ _ => (0, 0))
      = Except.error msg :=
  malformed_date_fails ⟨[], "24-06-15"⟩ 100 90 (fun _ _ => (0, 0)) rfl (by norm_num)

/-- C2 counterexample: a call with num_simulations = 0 (violating
num_simulations ≥ 1) does not fail: it silently returns an empty samples
list (the source computes np.mean/np.std of an empty list). -/
theorem invalid_params_return_ok :
    monte_carlo_churn_prediction ⟨[], "2024-06-15"⟩ 0 90 (fun _ _ => (0, 0))
      = Except.ok (0, 0, []) :=
  monte_carlo_zero_sims ⟨[], "2024-06-15"⟩ 0 90 (fun _ _ => (0, 0)) (by norm_num)

/-- C2 (corrected): the source performs no validation of num_simulations
or forecast_days: a call with num_simulations ≤ 0 silently succeeds with
an empty samples list, and a call with forecast_days ≤ 0 behaves exactly
like forecast_days = 0. -/
theorem no_parameter_validation :
    (∀ (c : CustomerData) (fd : ℤ) (oracle : ℕ → TrialDraw) (N : ℤ), N ≤ 0 →
        monte_carlo_churn_prediction c N fd oracle = Except.ok (0, 0, []))
      ∧ (∀ (c : CustomerData) (N : ℤ) (oracle : ℕ → TrialDraw) (fd : ℤ), fd ≤ 0 →
        monte_carlo_churn_prediction c N fd oracle
          = monte_carlo_churn_prediction c N 0 oracle) :=
  ⟨fun c fd oracle N hN => monte_carlo_zero_sims c N fd oracle hN,
   fun c N oracle fd hfd => monte_carlo_nonpos_days c N oracle fd hfd⟩

/-- C2 witness: the no-validation theorem applied at num_simulations = -3
and at forecast_days = -2. -/
theorem no_parameter_validation_witness :
    monte_carlo_churn_prediction ⟨[], "x"⟩ (-3) 7 (fun _ _ => (0, 0))
        = Except.ok (0, 0, [])
      ∧ monte_carlo_churn_prediction ⟨[], "x"⟩ 5 (-2) (fun _ _ => (0, 0))
        = monte_carlo_churn_prediction ⟨[], "x"⟩ 5 0 (fun _ _ => (0, 0)) :=
  ⟨no_parameter_validation.1 ⟨[], "x"⟩ 7 (fun _ _ => (0, 0)) (-3) (by norm_num),
   no_parameter_validation.2 ⟨[], "x"⟩ 5 (fun _ _ => (0, 0)) (-2) (by norm_num)⟩

end ChurnModel
